import Mathlib

set_option maxHeartbeats 1000000

/-! Shallow embedding of the in-memory topic-based publish/subscribe broker
    implemented in `message_queue.cpp`: the value types `Message`, `Consumer`,
    `Topic`, the broker `MessageQueue`, and the operations the specification
    talks about.  C++ sets are modelled as duplicate-free-by-construction
    lists, `unordered_map`s as association lists, mutable heap objects
    (consumers referenced through `shared_ptr`) as an explicit heap threaded
    through each operation, the external unique-id generator as a counter in
    the broker state, and a consumer's polymorphic handler as an environment
    mapping consumer ids to possibly-failing functions. -/

/-- A message value: `Message` in the source.  The id and timestamp come from
external collaborators; they are modelled by the broker's fresh counter. -/
structure Message where
  id : Nat
  topic : String
  payload : String
  timestamp : Nat
  headers : List (String × String)
deriving DecidableEq

/-- A consumer object (`Consumer` in the source): id, activation flag and the
back-reference set of subscribed topic names (`subscribedTopics_`). -/
structure Consumer where
  id : String
  active : Bool
  subscribedTopics : List String
deriving DecidableEq

/-- `TopicStats` from the source. -/
structure TopicStats where
  name : String
  messageCount : Nat
  queueSize : Nat
  subscriberCount : Nat
  maxSize : Nat
deriving DecidableEq

/-- A topic (`Topic` in the source): bounded FIFO buffer `messages_`,
subscriber list `subscribers_` (consumer references, modelled by ids) and the
accepted-message counter `messageCount_`. -/
structure Topic where
  name : String
  maxSize : Nat
  messages : List Message
  subscribers : List String
  messageCount : Nat
deriving DecidableEq

/-- The heap of consumer objects: each `shared_ptr<Consumer>` is modelled as a
key into this association list. -/
abbrev Heap := List (String × Consumer)

/-- Association-list lookup (models `unordered_map::find` and pointer
dereference). -/
def assocFind {α : Type} (key : String) : List (String × α) → Option α
  | [] => none
  | (k, v) :: rest => if k = key then some v else assocFind key rest

/-- Association-list in-place update of the entry with the given key (models
mutation through a reference). -/
def assocUpdate {α : Type} (key : String) (f : α → α) (l : List (String × α)) :
    List (String × α) :=
  l.map (fun p => if p.1 = key then (p.1, f p.2) else p)

/-- Association-list removal of a key (models `unordered_map::erase`). -/
def assocErase {α : Type} (key : String) : List (String × α) → List (String × α)
  | [] => []
  | (k, v) :: rest =>
    if k = key then assocErase key rest else (k, v) :: assocErase key rest

/-- Removal of an element from a modelled set (`unordered_set::erase`). -/
def eraseAll (x : String) : List String → List String
  | [] => []
  | y :: rest => if y = x then eraseAll x rest else y :: eraseAll x rest

/-- The environment of consumer handlers: `handler_->handleMessage` may raise
(`Except.error`) or return normally. -/
abbrev HandlerEnv := String → Message → Except String Unit

/-- Outcome of one handler invocation during fan-out. -/
inductive DeliveryOutcome where
  | handled
  | errorCaught (e : String)
deriving DecidableEq

/-- Observable record of handler invocations: consumer id, message id,
outcome.  An entry exists exactly when a handler was invoked. -/
abbrev DeliveryLog := List (String × Nat × DeliveryOutcome)

/-- `Consumer::addSubscription`: `unordered_set::insert` is a no-op when the
element is present. -/
def Consumer.addSubscription (c : Consumer) (topic : String) : Consumer :=
  if topic ∈ c.subscribedTopics then c
  else { c with subscribedTopics := c.subscribedTopics ++ [topic] }

/-- `Consumer::removeSubscription`: `unordered_set::erase` removes the
element. -/
def Consumer.removeSubscription (c : Consumer) (topic : String) : Consumer :=
  { c with subscribedTopics := eraseAll topic c.subscribedTopics }

/-- `Consumer::stop`: one-way flip of the activation flag. -/
def Consumer.stopC (c : Consumer) : Consumer :=
  { c with active := false }

/-- `Consumer::onMessage`: if active, invoke the handler and catch any error
at the consumer boundary; returns the invocation record. -/
def Consumer.onMessage (H : HandlerEnv) (c : Consumer) (m : Message) : DeliveryLog :=
  if c.active then
    match H c.id m with
    | .ok _ => [(c.id, m.id, .handled)]
    | .error e => [(c.id, m.id, .errorCaught e)]
  else []

/-- `Topic::subscribe`: append the consumer if not already present and record
the back-reference in the consumer object. -/
def Topic.subscribeC (t : Topic) (cid : String) (h : Heap) : Topic × Heap :=
  if cid ∈ t.subscribers then (t, h)
  else ({ t with subscribers := t.subscribers ++ [cid] },
        assocUpdate cid (fun c => c.addSubscription t.name) h)

/-- `Topic::unsubscribe`: remove the consumer (first occurrence, as
`vector::erase` at the `find` iterator) and clean the back-reference. -/
def Topic.unsubscribeC (t : Topic) (cid : String) (h : Heap) : Topic × Heap :=
  if cid ∈ t.subscribers then
    ({ t with subscribers := t.subscribers.erase cid },
     assocUpdate cid (fun c => c.removeSubscription t.name) h)
  else (t, h)

/-- One iteration of the fan-out loop body in `Topic::deliverMessage`:
dereference the subscriber; if active, hand the message to `onMessage`;
otherwise lazily prune it from the live subscriber list. -/
def deliverStep (H : HandlerEnv) (m : Message)
    (acc : Topic × Heap × DeliveryLog) (sid : String) : Topic × Heap × DeliveryLog :=
  match assocFind sid acc.2.1 with
  | none => acc
  | some c =>
    if c.active then
      (acc.1, acc.2.1, acc.2.2 ++ Consumer.onMessage H c m)
    else
      ((Topic.unsubscribeC acc.1 sid acc.2.1).1,
       (Topic.unsubscribeC acc.1 sid acc.2.1).2,
       acc.2.2)

/-- `Topic::deliverMessage`: iterate over a point-in-time snapshot of the
subscriber list. -/
def Topic.deliverMessage (H : HandlerEnv) (t : Topic) (m : Message) (h : Heap) :
    Topic × Heap × DeliveryLog :=
  t.subscribers.foldl (deliverStep H m) (t, h, [])

/-- `Topic::addMessage`: drop-newest when the buffer is full, otherwise append
at the tail, bump `messageCount_`, then fan out. -/
def Topic.addMessage (H : HandlerEnv) (t : Topic) (m : Message) (h : Heap) :
    Topic × Heap × DeliveryLog :=
  if t.messages.length ≥ t.maxSize then (t, h, [])
  else
    Topic.deliverMessage H
      { t with messages := t.messages ++ [m], messageCount := t.messageCount + 1 }
      m h

/-- `Topic::getStats`. -/
def Topic.getStats (t : Topic) : TopicStats :=
  { name := t.name
    messageCount := t.messageCount
    queueSize := t.messages.length
    subscriberCount := t.subscribers.length
    maxSize := t.maxSize }

/-- The broker (`MessageQueue` in the source): topic registry, global
consumer registry (references, modelled by ids), the consumer heap, and the
fresh counter standing in for the external id generator and clock. -/
structure MessageQueue where
  topics : List (String × Topic)
  consumers : List String
  heap : Heap
  nextId : Nat
deriving DecidableEq

/-- The default capacity used by the source (`maxSize = 1000`). -/
def defaultMaxSize : Nat := 1000

/-- The topic as constructed by `Topic::Topic(name, maxSize)`: empty buffer,
no subscribers, zero counter.  The constructor performs no validation of
`maxSize`. -/
def freshTopic (name : String) (maxSize : Nat) : Topic :=
  { name := name, maxSize := maxSize, messages := [], subscribers := [],
    messageCount := 0 }

/-- `MessageQueue::createTopic`: idempotent get-or-create. -/
def MessageQueue.createTopic (mq : MessageQueue) (name : String) (maxSize : Nat) :
    MessageQueue × Topic :=
  match assocFind name mq.topics with
  | some t => (mq, t)
  | none =>
    ({ mq with topics := (name, freshTopic name maxSize) :: mq.topics },
     freshTopic name maxSize)

/-- `MessageQueue::deleteTopic`: remove the topic from the registry and
unsubscribe every consumer of the global registry from it. -/
def MessageQueue.deleteTopic (mq : MessageQueue) (name : String) :
    MessageQueue × Bool :=
  match assocFind name mq.topics with
  | none => (mq, false)
  | some t =>
    ({ mq with
        topics := assocErase name mq.topics
        heap := (mq.consumers.foldl
          (fun acc cid => Topic.unsubscribeC acc.1 cid acc.2) (t, mq.heap)).2 },
     true)

/-- The message as constructed by `Message::Message(topic, payload, headers)`:
the fresh id and the timestamp come from the external id generator and clock,
modelled by the broker's counter value. -/
def mkMessage (nid : Nat) (tn p : String) (hs : List (String × String)) : Message :=
  { id := nid, topic := tn, payload := p, timestamp := nid, headers := hs }

/-- `MessageQueue::publish`: get-or-create the topic, construct a fresh
message, enqueue (and, on acceptance, fan out), and return the message id. -/
def MessageQueue.publish (H : HandlerEnv) (mq : MessageQueue)
    (topicName payload : String) (headers : List (String × String)) :
    MessageQueue × Nat × DeliveryLog :=
  let mqt := mq.createTopic topicName defaultMaxSize
  let msg : Message := mkMessage mqt.1.nextId topicName payload headers
  let r := Topic.addMessage H mqt.2 msg mqt.1.heap
  ({ mqt.1 with
      topics := assocUpdate topicName (fun _ => r.1) mqt.1.topics
      heap := r.2.1
      nextId := mqt.1.nextId + 1 },
   mqt.1.nextId, r.2.2)

/-- `MessageQueue::subscribe`: delegate to the topic and register the consumer
globally if unseen.  A consumer reference can only be handed in for an object
that exists, hence the heap guard. -/
def MessageQueue.subscribeB (mq : MessageQueue) (cid topicName : String) :
    MessageQueue :=
  match assocFind cid mq.heap with
  | none => mq
  | some _ =>
    let mqt := mq.createTopic topicName defaultMaxSize
    let th := Topic.subscribeC mqt.2 cid mqt.1.heap
    { mqt.1 with
        topics := assocUpdate topicName (fun _ => th.1) mqt.1.topics
        heap := th.2
        consumers :=
          if cid ∈ mqt.1.consumers then mqt.1.consumers
          else mqt.1.consumers ++ [cid] }

/-- `MessageQueue::unsubscribe`: no-op on an unknown topic name. -/
def MessageQueue.unsubscribeB (mq : MessageQueue) (cid topicName : String) :
    MessageQueue :=
  match assocFind topicName mq.topics with
  | none => mq
  | some t =>
    let th := Topic.unsubscribeC t cid mq.heap
    { mq with
        topics := assocUpdate topicName (fun _ => th.1) mq.topics
        heap := th.2 }

/-- `MessageQueue::getTopicStats`: `nullopt` on an unknown name. -/
def MessageQueue.getTopicStats (mq : MessageQueue) (topicName : String) :
    Option TopicStats :=
  match assocFind topicName mq.topics with
  | none => none
  | some t => some t.getStats

/-- External construction of a `Consumer` object (`Consumer::Consumer`):
starts active with an empty subscription set.  Distinct objects have distinct
ids, so an existing id is never rebuilt. -/
def MessageQueue.newConsumer (mq : MessageQueue) (cid : String) : MessageQueue :=
  match assocFind cid mq.heap with
  | some _ => mq
  | none =>
    { mq with heap :=
        mq.heap ++ [(cid, { id := cid, active := true, subscribedTopics := [] })] }

/-- `Consumer::stop` applied through the broker's heap. -/
def MessageQueue.stopConsumer (mq : MessageQueue) (cid : String) : MessageQueue :=
  { mq with heap := assocUpdate cid Consumer.stopC mq.heap }

/-- The broker's external API as a step machine, for reachability
statements. -/
inductive Op where
  | newConsumer (cid : String)
  | createTopic (name : String) (cap : Nat)
  | publish (topic payload : String) (headers : List (String × String))
  | subscribe (cid topic : String)
  | unsubscribe (cid topic : String)
  | deleteTopic (name : String)
  | stop (cid : String)

/-- One API call, outputs discarded. -/
def step (H : HandlerEnv) (mq : MessageQueue) : Op → MessageQueue
  | .newConsumer cid => mq.newConsumer cid
  | .createTopic n c => (mq.createTopic n c).1
  | .publish t p hs => (MessageQueue.publish H mq t p hs).1
  | .subscribe c t => mq.subscribeB c t
  | .unsubscribe c t => mq.unsubscribeB c t
  | .deleteTopic n => (mq.deleteTopic n).1
  | .stop c => mq.stopConsumer c

/-- Run a sequence of API calls. -/
def run (H : HandlerEnv) (ops : List Op) (mq : MessageQueue) : MessageQueue :=
  ops.foldl (step H) mq

/-- The freshly constructed broker. -/
def initMQ : MessageQueue :=
  { topics := [], consumers := [], heap := [], nextId := 0 }

/-! Generic helper lemmas about the association-list and fold helpers. -/

theorem foldl_inv {α β : Type} (P : α → Prop) (f : α → β → α)
    (hf : ∀ a b, P a → P (f a b)) :
    ∀ (l : List β) (a : α), P a → P (l.foldl f a) := by
  intro l
  induction l with
  | nil => exact fun a ha => ha
  | cons x xs ih => exact fun a ha => ih (f a x) (hf a x ha)

theorem assocUpdate_cons {α : Type} (key : String) (f : α → α) (k : String)
    (v : α) (rest : List (String × α)) :
    assocUpdate key f ((k, v) :: rest) =
      (if k = key then (k, f v) else (k, v)) :: assocUpdate key f rest := rfl

theorem assocFind_update_self {α : Type} (key : String) (f : α → α) :
    ∀ l : List (String × α),
      assocFind key (assocUpdate key f l) = (assocFind key l).map f := by
  intro l
  induction l with
  | nil => rfl
  | cons p rest ih =>
    obtain ⟨k, v⟩ := p
    rw [assocUpdate_cons]
    by_cases hk : k = key
    · rw [if_pos hk]
      show (if k = key then some (f v) else assocFind key (assocUpdate key f rest)) = _
      rw [if_pos hk]
      show _ = (if k = key then some v else assocFind key rest).map f
      rw [if_pos hk]
      rfl
    · rw [if_neg hk]
      show (if k = key then some v else assocFind key (assocUpdate key f rest)) = _
      rw [if_neg hk, ih]
      show _ = (if k = key then some v else assocFind key rest).map f
      rw [if_neg hk]

theorem assocFind_update_ne {α : Type} (key key' : String) (f : α → α)
    (hne : key' ≠ key) :
    ∀ l : List (String × α),
      assocFind key' (assocUpdate key f l) = assocFind key' l := by
  intro l
  induction l with
  | nil => rfl
  | cons p rest ih =>
    obtain ⟨k, v⟩ := p
    rw [assocUpdate_cons]
    by_cases hk : k = key
    · rw [if_pos hk]
      show (if k = key' then some (f v) else assocFind key' (assocUpdate key f rest)) = _
      have hkk : k ≠ key' := fun h => hne (by rw [← h, hk])
      rw [if_neg hkk, ih]
      show _ = (if k = key' then some v else assocFind key' rest)
      rw [if_neg hkk]
    · rw [if_neg hk]
      show (if k = key' then some v else assocFind key' (assocUpdate key f rest)) = _
      show _ = (if k = key' then some v else assocFind key' rest)
      by_cases hk' : k = key'
      · rw [if_pos hk', if_pos hk']
      · rw [if_neg hk', if_neg hk', ih]

theorem createTopic_nextId (mq : MessageQueue) (n : String) (c : Nat) :
    (mq.createTopic n c).1.nextId = mq.nextId := by
  unfold MessageQueue.createTopic
  cases assocFind n mq.topics <;> rfl

theorem createTopic_heap (mq : MessageQueue) (n : String) (c : Nat) :
    (mq.createTopic n c).1.heap = mq.heap := by
  unfold MessageQueue.createTopic
  cases assocFind n mq.topics <;> rfl

theorem createTopic_consumers (mq : MessageQueue) (n : String) (c : Nat) :
    (mq.createTopic n c).1.consumers = mq.consumers := by
  unfold MessageQueue.createTopic
  cases assocFind n mq.topics <;> rfl

theorem createTopic_find (mq : MessageQueue) (n : String) (c : Nat) :
    assocFind n (mq.createTopic n c).1.topics = some (mq.createTopic n c).2 := by
  unfold MessageQueue.createTopic
  cases h : assocFind n mq.topics with
  | some t => simpa using h
  | none => simp [assocFind]

theorem unsubscribeC_fields (t : Topic) (cid : String) (h : Heap) :
    (Topic.unsubscribeC t cid h).1.messages = t.messages ∧
    (Topic.unsubscribeC t cid h).1.messageCount = t.messageCount ∧
    (Topic.unsubscribeC t cid h).1.maxSize = t.maxSize ∧
    (Topic.unsubscribeC t cid h).1.name = t.name := by
  unfold Topic.unsubscribeC
  split <;> simp

theorem deliverStep_fields (H : HandlerEnv) (m : Message)
    (acc : Topic × Heap × DeliveryLog) (sid : String) :
    (deliverStep H m acc sid).1.messages = acc.1.messages ∧
    (deliverStep H m acc sid).1.messageCount = acc.1.messageCount ∧
    (deliverStep H m acc sid).1.maxSize = acc.1.maxSize ∧
    (deliverStep H m acc sid).1.name = acc.1.name := by
  unfold deliverStep
  cases assocFind sid acc.2.1 with
  | none => simp
  | some c =>
    by_cases hc : c.active
    · simp [hc]
    · simp only [hc, if_false, Bool.false_eq_true]
      exact unsubscribeC_fields acc.1 sid acc.2.1

theorem deliverMessage_preserves (H : HandlerEnv) (m : Message) (t : Topic) (h : Heap) :
    (Topic.deliverMessage H t m h).1.messages = t.messages ∧
    (Topic.deliverMessage H t m h).1.messageCount = t.messageCount ∧
    (Topic.deliverMessage H t m h).1.maxSize = t.maxSize ∧
    (Topic.deliverMessage H t m h).1.name = t.name := by
  unfold Topic.deliverMessage
  exact foldl_inv
    (fun acc => acc.1.messages = t.messages ∧ acc.1.messageCount = t.messageCount ∧
      acc.1.maxSize = t.maxSize ∧ acc.1.name = t.name)
    (deliverStep H m)
    (fun acc sid hp => by
      have hf := deliverStep_fields H m acc sid
      exact ⟨hf.1.trans hp.1, hf.2.1.trans hp.2.1, hf.2.2.1.trans hp.2.2.1,
        hf.2.2.2.trans hp.2.2.2⟩)
    t.subscribers (t, h, []) ⟨rfl, rfl, rfl, rfl⟩

theorem addMessage_capacity_zero (H : HandlerEnv) (m : Message) (h : Heap)
    (t : Topic) (hm : t.maxSize = 0) :
    Topic.addMessage H t m h = (t, h, []) := by
  unfold Topic.addMessage
  rw [if_pos]
  rw [hm]
  exact Nat.zero_le _

/-! Concrete inputs used by the witnesses. -/

def H0 : HandlerEnv := fun _ _ => .ok ()

def m0 : Message :=
  { id := 0, topic := "t", payload := "p", timestamp := 0, headers := [] }

def t0 : Topic :=
  { name := "t", maxSize := 1, messages := [], subscribers := [], messageCount := 0 }

def t1 : Topic :=
  { name := "t", maxSize := 1, messages := [m0], subscribers := [], messageCount := 1 }

/-- C1: a topic's buffer never exceeds its capacity; an enqueue against a full
buffer is rejected without touching the buffer, the counter, the heap, or any
subscriber (no delivery), while an enqueue against a non-full buffer appends
the message at the tail and increments `messageCount` by exactly one. -/
theorem addMessage_backpressure (H : HandlerEnv) (t : Topic) (m : Message) (h : Heap) :
    (t.messages.length ≤ t.maxSize →
      (Topic.addMessage H t m h).1.messages.length ≤ t.maxSize) ∧
    (t.messages.length ≥ t.maxSize →
      Topic.addMessage H t m h = (t, h, [])) ∧
    (t.messages.length < t.maxSize →
      (Topic.addMessage H t m h).1.messages = t.messages ++ [m] ∧
      (Topic.addMessage H t m h).1.messageCount = t.messageCount + 1) := by
  by_cases hfull : t.messages.length ≥ t.maxSize
  · refine ⟨fun hle => ?_, fun _ => ?_, fun hlt => absurd hlt (by omega)⟩
    · unfold Topic.addMessage
      rw [if_pos hfull]
      exact hle
    · unfold Topic.addMessage
      rw [if_pos hfull]
  · have hlt : t.messages.length < t.maxSize := by omega
    have hp := deliverMessage_preserves H m
      { t with messages := t.messages ++ [m], messageCount := t.messageCount + 1 } h
    have hred : Topic.addMessage H t m h =
        Topic.deliverMessage H
          { t with messages := t.messages ++ [m], messageCount := t.messageCount + 1 }
          m h := by
      unfold Topic.addMessage
      rw [if_neg hfull]
    refine ⟨fun _ => ?_, fun hge => absurd hge hfull, fun _ => ?_⟩
    · rw [hred, hp.1]
      simp only [List.length_append, List.length_singleton]
      omega
    · rw [hred]
      exact ⟨hp.1, hp.2.1⟩

theorem addMessage_backpressure_witness :
    Topic.addMessage H0 t1 m0 [] = (t1, [], []) ∧
    (Topic.addMessage H0 t0 m0 []).1.messages = t0.messages ++ [m0] ∧
    (Topic.addMessage H0 t0 m0 []).1.messageCount = t0.messageCount + 1 :=
  ⟨(addMessage_backpressure H0 t1 m0 []).2.1 (by decide),
   ((addMessage_backpressure H0 t0 m0 []).2.2 (by decide)).1,
   ((addMessage_backpressure H0 t0 m0 []).2.2 (by decide)).2⟩

/-- C2: `publish` get-or-creates the topic and returns the freshly constructed
message's id (the broker's fresh counter) unconditionally — in particular it
returns the same id whether or not the enqueue was accepted, so a capacity
drop is never signalled to the caller through the return value. -/
theorem publish_returns_id (H : HandlerEnv) (mq : MessageQueue)
    (name payload : String) (headers : List (String × String)) :
    (MessageQueue.publish H mq name payload headers).2.1 = mq.nextId ∧
    ∃ tp, assocFind name (MessageQueue.publish H mq name payload headers).1.topics =
      some tp := by
  unfold MessageQueue.publish
  simp only []
  constructor
  · exact createTopic_nextId mq name defaultMaxSize
  · rw [assocFind_update_self, createTopic_find]
    exact ⟨_, rfl⟩

/-- C7: on a topic name absent from the registry, `getTopicStats` returns the
absent result and the broker-level `unsubscribe` leaves the broker state
completely unchanged; neither operation creates the topic. -/
theorem unknown_topic_reads (mq : MessageQueue) (cid name : String)
    (hlk : assocFind name mq.topics = none) :
    mq.getTopicStats name = none ∧ mq.unsubscribeB cid name = mq := by
  unfold MessageQueue.getTopicStats MessageQueue.unsubscribeB
  rw [hlk]
  exact ⟨rfl, rfl⟩

theorem unknown_topic_reads_witness :
    initMQ.getTopicStats "t" = none ∧ initMQ.unsubscribeB "c" "t" = initMQ :=
  unknown_topic_reads initMQ "c" "t" rfl

/-- C8 counterexample: constructing a topic with capacity 0 does not fail —
`createTopic` on the empty broker registers a topic whose capacity is stored
as 0, with no error surfaced to the caller (the operation has no error
outcome at all in the source). -/
theorem createTopic_zero_capacity_counterexample :
    (initMQ.createTopic "t" 0).2.maxSize = 0 ∧
    assocFind "t" (initMQ.createTopic "t" 0).1.topics =
      some { name := "t", maxSize := 0, messages := [], subscribers := [],
             messageCount := 0 } := by
  exact ⟨rfl, rfl⟩

/-- C8 (amended): topic construction performs no validation of the capacity
argument: any capacity, including 0, is silently accepted and stored exactly
as given (never clamped), and a capacity-0 topic subsequently rejects every
message. -/
theorem createTopic_accepts_any_capacity (mq : MessageQueue) (name : String)
    (cap : Nat) (hlk : assocFind name mq.topics = none) :
    (mq.createTopic name cap).2.maxSize = cap ∧
    assocFind name (mq.createTopic name cap).1.topics =
      some (mq.createTopic name cap).2 ∧
    (cap = 0 → ∀ (H : HandlerEnv) (m : Message) (h : Heap),
      Topic.addMessage H (mq.createTopic name cap).2 m h =
        ((mq.createTopic name cap).2, h, [])) := by
  refine ⟨?_, createTopic_find mq name cap, fun hcap H m h => ?_⟩
  · unfold MessageQueue.createTopic
    rw [hlk]
    rfl
  · refine addMessage_capacity_zero H m h _ ?_
    unfold MessageQueue.createTopic
    rw [hlk]
    exact hcap

theorem createTopic_accepts_any_capacity_witness :
    (initMQ.createTopic "x" 0).2.maxSize = 0 ∧
    Topic.addMessage H0 (initMQ.createTopic "x" 0).2 m0 [] =
      ((initMQ.createTopic "x" 0).2, [], []) :=
  ⟨(createTopic_accepts_any_capacity initMQ "x" 0 rfl).1,
   (createTopic_accepts_any_capacity initMQ "x" 0 rfl).2.2 rfl H0 m0 []⟩

/-- C3: with two subscribers on a topic, one whose handler raises and one
well-behaved, fan-out of a message invokes the well-behaved consumer's
handler with that message; the failing handler's error is caught at the
consumer boundary (recorded, not propagated): delivery returns normally with
the topic and heap unchanged. -/
theorem deliver_isolation (H : HandlerEnv) (t : Topic) (m : Message) (h : Heap)
    (c1 c2 : String) (co1 co2 : Consumer) (e : String)
    (hsubs : t.subscribers = [c1, c2])
    (h1 : assocFind c1 h = some co1) (h2 : assocFind c2 h = some co2)
    (hid1 : co1.id = c1) (hid2 : co2.id = c2)
    (ha1 : co1.active = true) (ha2 : co2.active = true)
    (hH1 : H c1 m = .error e) (hH2 : H c2 m = .ok ()) :
    Topic.deliverMessage H t m h =
      (t, h, [(c1, m.id, DeliveryOutcome.errorCaught e),
              (c2, m.id, DeliveryOutcome.handled)]) := by
  have s1 : deliverStep H m (t, h, ([] : DeliveryLog)) c1 =
      (t, h, [(c1, m.id, DeliveryOutcome.errorCaught e)]) := by
    unfold deliverStep Consumer.onMessage
    simp only [h1, ha1, hid1, hH1]
    simp
  have s2 : deliverStep H m (t, h, [(c1, m.id, DeliveryOutcome.errorCaught e)]) c2 =
      (t, h, [(c1, m.id, DeliveryOutcome.errorCaught e),
              (c2, m.id, DeliveryOutcome.handled)]) := by
    unfold deliverStep Consumer.onMessage
    simp only [h2, ha2, hid2, hH2]
    simp
  unfold Topic.deliverMessage
  rw [hsubs]
  simp only [List.foldl_cons, List.foldl_nil]
  rw [s1, s2]

def consA : Consumer := { id := "a", active := true, subscribedTopics := ["t"] }

def consB : Consumer := { id := "b", active := true, subscribedTopics := ["t"] }

def topicAB : Topic :=
  { name := "t", maxSize := 10, messages := [m0], subscribers := ["a", "b"],
    messageCount := 1 }

def heapAB : Heap := [("a", consA), ("b", consB)]

def Hfail : HandlerEnv := fun cid _ => if cid = "a" then .error "boom" else .ok ()

theorem deliver_isolation_witness :
    Topic.deliverMessage Hfail topicAB m0 heapAB =
      (topicAB, heapAB, [("a", m0.id, DeliveryOutcome.errorCaught "boom"),
                         ("b", m0.id, DeliveryOutcome.handled)]) :=
  deliver_isolation Hfail topicAB m0 heapAB "a" "b" consA consB "boom"
    rfl rfl rfl rfl rfl rfl rfl rfl rfl

/-- C4: `Topic::subscribe` is idempotent: called twice in a row it yields
exactly one occurrence of the consumer in the subscriber list and exactly one
membership of the topic name in the consumer's subscription set; when already
subscribed the call is a no-op, otherwise the consumer is appended to the
subscriber list and the back-reference is recorded. -/
theorem subscribe_idempotent (t : Topic) (cid : String) (h : Heap) (co : Consumer)
    (hco : assocFind cid h = some co)
    (hc1 : t.subscribers.count cid ≤ 1)
    (hs1 : co.subscribedTopics.count t.name ≤ 1)
    (hsync : cid ∈ t.subscribers → t.name ∈ co.subscribedTopics) :
    Topic.subscribeC (Topic.subscribeC t cid h).1 cid (Topic.subscribeC t cid h).2 =
      Topic.subscribeC t cid h ∧
    (Topic.subscribeC t cid h).1.subscribers.count cid = 1 ∧
    (∃ co', assocFind cid (Topic.subscribeC t cid h).2 = some co' ∧
      co'.subscribedTopics.count t.name = 1) ∧
    (cid ∈ t.subscribers → Topic.subscribeC t cid h = (t, h)) ∧
    (cid ∉ t.subscribers →
      (Topic.subscribeC t cid h).1.subscribers = t.subscribers ++ [cid]) := by
  by_cases hmem : cid ∈ t.subscribers
  · have hone : Topic.subscribeC t cid h = (t, h) := by
      unfold Topic.subscribeC
      rw [if_pos hmem]
    have hcnt : t.subscribers.count cid = 1 := by
      have : 0 < t.subscribers.count cid := List.count_pos_iff.mpr hmem
      omega
    have hmemT : t.name ∈ co.subscribedTopics := hsync hmem
    have hcntT : co.subscribedTopics.count t.name = 1 := by
      have : 0 < co.subscribedTopics.count t.name := List.count_pos_iff.mpr hmemT
      omega
    refine ⟨?_, ?_, ⟨co, ?_, hcntT⟩, fun _ => hone, fun hnot => absurd hmem hnot⟩
    · rw [hone]
      exact hone
    · rw [hone]
      exact hcnt
    · rw [hone]
      exact hco
  · have hone : Topic.subscribeC t cid h =
        ({ t with subscribers := t.subscribers ++ [cid] },
         assocUpdate cid (fun c => c.addSubscription t.name) h) := by
      unfold Topic.subscribeC
      rw [if_neg hmem]
    have hmem2 : cid ∈ t.subscribers ++ [cid] := by
      simp
    refine ⟨?_, ?_, ?_, fun hin => absurd hin hmem, fun _ => by rw [hone]⟩
    · rw [hone]
      unfold Topic.subscribeC
      rw [if_pos hmem2]
    · rw [hone]
      show (t.subscribers ++ [cid]).count cid = 1
      rw [List.count_append, List.count_eq_zero_of_not_mem hmem]
      simp
    · refine ⟨co.addSubscription t.name, ?_, ?_⟩
      · rw [hone]
        show assocFind cid (assocUpdate cid (fun c => c.addSubscription t.name) h) = _
        rw [assocFind_update_self, hco]
        rfl
      · unfold Consumer.addSubscription
        by_cases hmt : t.name ∈ co.subscribedTopics
        · rw [if_pos hmt]
          have : 0 < co.subscribedTopics.count t.name := List.count_pos_iff.mpr hmt
          omega
        · rw [if_neg hmt]
          show (co.subscribedTopics ++ [t.name]).count t.name = 1
          rw [List.count_append, List.count_eq_zero_of_not_mem hmt]
          simp

def consFree : Consumer := { id := "c", active := true, subscribedTopics := [] }

def topicEmpty : Topic :=
  { name := "x", maxSize := 5, messages := [], subscribers := [], messageCount := 0 }

theorem subscribe_idempotent_witness :
    Topic.subscribeC (Topic.subscribeC topicEmpty "c" [("c", consFree)]).1 "c"
        (Topic.subscribeC topicEmpty "c" [("c", consFree)]).2 =
      Topic.subscribeC topicEmpty "c" [("c", consFree)] ∧
    (Topic.subscribeC topicEmpty "c" [("c", consFree)]).1.subscribers.count "c" = 1 :=
  ⟨(subscribe_idempotent topicEmpty "c" [("c", consFree)] consFree rfl
      (by decide) (by decide) (by decide)).1,
   (subscribe_idempotent topicEmpty "c" [("c", consFree)] consFree rfl
      (by decide) (by decide) (by decide)).2.1⟩

/-! Lemmas about the erase helpers and `deleteTopic`'s cleanup fold. -/

theorem not_mem_eraseAll_self (x : String) : ∀ l : List String, x ∉ eraseAll x l := by
  intro l
  induction l with
  | nil => simp [eraseAll]
  | cons z rest ih =>
    by_cases hz : z = x
    · simpa [eraseAll, hz] using ih
    · intro hmem
      rw [show eraseAll x (z :: rest) = z :: eraseAll x rest from by
        simp [eraseAll, hz]] at hmem
      rcases List.mem_cons.mp hmem with h | h
      · exact hz h.symm
      · exact ih h

theorem assocFind_erase_self {α : Type} (key : String) :
    ∀ l : List (String × α), assocFind key (assocErase key l) = none := by
  intro l
  induction l with
  | nil => rfl
  | cons p rest ih =>
    obtain ⟨k, v⟩ := p
    by_cases hk : k = key
    · rw [show assocErase key ((k, v) :: rest) = assocErase key rest from by
        simp [assocErase, hk]]
      exact ih
    · rw [show assocErase key ((k, v) :: rest) = (k, v) :: assocErase key rest from by
        simp [assocErase, hk]]
      show (if k = key then some v else assocFind key (assocErase key rest)) = none
      rw [if_neg hk, ih]

theorem unsubscribeC_heap_ne (t : Topic) (cid c : String) (h : Heap) (hne : c ≠ cid) :
    assocFind c (Topic.unsubscribeC t cid h).2 = assocFind c h := by
  unfold Topic.unsubscribeC
  split
  · show assocFind c
        (assocUpdate cid (fun x => Consumer.removeSubscription x t.name) h) =
      assocFind c h
    exact assocFind_update_ne cid c _ hne h
  · rfl

theorem unsubscribeC_subscribers_mem (t : Topic) (cid a : String) (h : Heap)
    (hne : a ≠ cid) (hmem : a ∈ t.subscribers) :
    a ∈ (Topic.unsubscribeC t cid h).1.subscribers := by
  unfold Topic.unsubscribeC
  split
  · show a ∈ t.subscribers.erase cid
    exact (List.mem_erase_of_ne hne).mpr hmem
  · exact hmem

theorem delete_fold_heap_untouched :
    ∀ (cids : List String) (tp : Topic) (h : Heap) (c : String), c ∉ cids →
      assocFind c
        ((cids.foldl (fun acc cid => Topic.unsubscribeC acc.1 cid acc.2) (tp, h)).2) =
        assocFind c h := by
  intro cids
  induction cids with
  | nil => intro tp h c _; rfl
  | cons d ds ih =>
    intro tp h c hc
    have hne : c ≠ d := fun he => hc (he ▸ List.mem_cons_self d ds)
    have hds : c ∉ ds := fun hm => hc (List.mem_cons_of_mem d hm)
    rw [List.foldl_cons]
    exact (ih (Topic.unsubscribeC tp d h).1 (Topic.unsubscribeC tp d h).2 c hds).trans
      (unsubscribeC_heap_ne tp d c h hne)

theorem delete_fold_cleans (nm : String) :
    ∀ (cids : List String) (tp : Topic) (h : Heap),
      tp.name = nm →
      cids.Nodup →
      (∀ cid ∈ cids, ∀ co, assocFind cid h = some co →
        nm ∈ co.subscribedTopics → cid ∈ tp.subscribers) →
      ∀ cid ∈ cids, ∀ co',
        assocFind cid
          ((cids.foldl (fun acc c => Topic.unsubscribeC acc.1 c acc.2) (tp, h)).2) =
          some co' →
        nm ∉ co'.subscribedTopics := by
  intro cids
  induction cids with
  | nil =>
    intro tp h _ _ _ cid hcid
    exact absurd hcid (List.not_mem_nil cid)
  | cons d ds ih =>
    intro tp h htn hnd hsync cid hcid co' hfind
    rw [List.foldl_cons] at hfind
    have hdds : d ∉ ds := (List.nodup_cons.mp hnd).1
    have hndds : ds.Nodup := (List.nodup_cons.mp hnd).2
    have htn1 : (Topic.unsubscribeC tp d h).1.name = nm := by
      rw [(unsubscribeC_fields tp d h).2.2.2, htn]
    rcases List.mem_cons.mp hcid with hceq | hcds
    · subst hceq
      have hfind' : assocFind cid
          ((ds.foldl (fun acc c => Topic.unsubscribeC acc.1 c acc.2)
            ((Topic.unsubscribeC tp cid h).1, (Topic.unsubscribeC tp cid h).2)).2) =
          some co' := hfind
      rw [delete_fold_heap_untouched ds (Topic.unsubscribeC tp cid h).1
        (Topic.unsubscribeC tp cid h).2 cid hdds] at hfind'
      by_cases hmem : cid ∈ tp.subscribers
      · rw [show Topic.unsubscribeC tp cid h =
            ({ tp with subscribers := tp.subscribers.erase cid },
             assocUpdate cid (fun c => c.removeSubscription tp.name) h) from by
          unfold Topic.unsubscribeC
          rw [if_pos hmem]] at hfind'
        rw [show (({ tp with subscribers := tp.subscribers.erase cid },
            assocUpdate cid (fun c => c.removeSubscription tp.name) h) :
            Topic × Heap).2 =
            assocUpdate cid (fun c => c.removeSubscription tp.name) h from rfl,
          assocFind_update_self] at hfind'
        cases hco : assocFind cid h with
        | none =>
          rw [hco] at hfind'
          exact absurd hfind' (by simp)
        | some co0 =>
          rw [hco] at hfind'
          have hco' : co' = co0.removeSubscription tp.name := by
            simpa using hfind'.symm
          rw [hco']
          show nm ∉ eraseAll tp.name co0.subscribedTopics
          rw [htn]
          exact not_mem_eraseAll_self nm co0.subscribedTopics
      · rw [show Topic.unsubscribeC tp cid h = (tp, h) from by
          unfold Topic.unsubscribeC
          rw [if_neg hmem]] at hfind'
        intro hin
        exact hmem (hsync cid (List.mem_cons_self cid ds) co' hfind' hin)
    · refine ih (Topic.unsubscribeC tp d h).1 (Topic.unsubscribeC tp d h).2 htn1 hndds
        ?_ cid hcds co' hfind
      intro c hc co hfindc hinc
      have hcne : c ≠ d := fun he => hdds (he ▸ hc)
      rw [unsubscribeC_heap_ne tp d c h hcne] at hfindc
      exact unsubscribeC_subscribers_mem tp d c h hcne
        (hsync c (List.mem_cons_of_mem d hc) co hfindc hinc)

/-- C5: deleting a registered topic removes it from the registry, returns
true, makes `getTopicStats` report it absent, and removes the topic's name
from the `subscribedTopics` set of every consumer of the broker's consumer
registry; deleting an unknown name returns false and changes nothing.  The
hypotheses record the broker invariants the API maintains: the registry key
names its topic, registered consumer references are distinct, and a
registered consumer holding the back-reference is in the topic's subscriber
list. -/
theorem deleteTopic_cleans (mq : MessageQueue) (name : String) (tp : Topic)
    (hlk : assocFind name mq.topics = some tp)
    (htn : tp.name = name)
    (hnd : mq.consumers.Nodup)
    (hsync : ∀ cid ∈ mq.consumers, ∀ co, assocFind cid mq.heap = some co →
      name ∈ co.subscribedTopics → cid ∈ tp.subscribers) :
    (mq.deleteTopic name).2 = true ∧
    assocFind name (mq.deleteTopic name).1.topics = none ∧
    (mq.deleteTopic name).1.getTopicStats name = none ∧
    (∀ cid ∈ mq.consumers, ∀ co',
      assocFind cid (mq.deleteTopic name).1.heap = some co' →
      name ∉ co'.subscribedTopics) ∧
    (∀ n, assocFind n mq.topics = none → mq.deleteTopic n = (mq, false)) := by
  have hred : mq.deleteTopic name =
      ({ mq with
          topics := assocErase name mq.topics
          heap := (mq.consumers.foldl
            (fun acc cid => Topic.unsubscribeC acc.1 cid acc.2) (tp, mq.heap)).2 },
       true) := by
    unfold MessageQueue.deleteTopic
    rw [hlk]
  refine ⟨by rw [hred], ?_, ?_, ?_, ?_⟩
  · rw [hred]
    exact assocFind_erase_self name mq.topics
  · rw [hred]
    unfold MessageQueue.getTopicStats
    rw [show ((({ mq with
        topics := assocErase name mq.topics
        heap := (mq.consumers.foldl
          (fun acc cid => Topic.unsubscribeC acc.1 cid acc.2) (tp, mq.heap)).2 },
        true) : MessageQueue × Bool)).1.topics = assocErase name mq.topics from rfl,
      assocFind_erase_self]
  · intro cid hcid co' hfind
    rw [hred] at hfind
    exact delete_fold_cleans name mq.consumers tp mq.heap htn hnd hsync cid hcid co' hfind
  · intro n hn
    unfold MessageQueue.deleteTopic
    rw [hn]

def consX : Consumer := { id := "c", active := true, subscribedTopics := ["x"] }

def tpX : Topic :=
  { name := "x", maxSize := 3, messages := [], subscribers := ["c"], messageCount := 0 }

def mqX : MessageQueue :=
  { topics := [("x", tpX)], consumers := ["c"], heap := [("c", consX)], nextId := 0 }

theorem deleteTopic_cleans_witness :
    (mqX.deleteTopic "x").2 = true ∧
    assocFind "x" (mqX.deleteTopic "x").1.topics = none ∧
    ∀ cid ∈ mqX.consumers, ∀ co',
      assocFind cid (mqX.deleteTopic "x").1.heap = some co' →
      "x" ∉ co'.subscribedTopics := by
  have hth := deleteTopic_cleans mqX "x" tpX rfl rfl (by decide)
    (by
      intro cid hcid co hco hmem
      have hc : cid = "c" := by simpa [mqX] using hcid
      subst hc
      show "c" ∈ tpX.subscribers
      decide)
  exact ⟨hth.1, hth.2.1, hth.2.2.2.1⟩

/-! Reduction lemmas: each broker operation unfolded at a resolved registry
or heap lookup, plus small preservation facts reused by the invariant
proofs. -/

theorem createTopic_existing (mq : MessageQueue) (n : String) (c : Nat) (t : Topic)
    (hlk : assocFind n mq.topics = some t) :
    mq.createTopic n c = (mq, t) := by
  unfold MessageQueue.createTopic
  rw [hlk]

theorem createTopic_new (mq : MessageQueue) (n : String) (c : Nat)
    (hlk : assocFind n mq.topics = none) :
    mq.createTopic n c =
      ({ mq with topics := (n, freshTopic n c) :: mq.topics }, freshTopic n c) := by
  unfold MessageQueue.createTopic
  rw [hlk]

theorem createTopic_find_ne (mq : MessageQueue) (nm : String) (c : Nat) (n : String)
    (hne : n ≠ nm) :
    assocFind n (mq.createTopic nm c).1.topics = assocFind n mq.topics := by
  unfold MessageQueue.createTopic
  cases h : assocFind nm mq.topics with
  | some t => rfl
  | none =>
    show (if nm = n then some (freshTopic nm c) else assocFind n mq.topics) =
      assocFind n mq.topics
    rw [if_neg (fun he => hne he.symm)]

theorem subscribeC_fields (t : Topic) (cid : String) (h : Heap) :
    (Topic.subscribeC t cid h).1.messages = t.messages ∧
    (Topic.subscribeC t cid h).1.messageCount = t.messageCount ∧
    (Topic.subscribeC t cid h).1.maxSize = t.maxSize ∧
    (Topic.subscribeC t cid h).1.name = t.name := by
  unfold Topic.subscribeC
  split <;> simp

theorem publish_reduces (H : HandlerEnv) (mq : MessageQueue)
    (tn p : String) (hs : List (String × String)) :
    MessageQueue.publish H mq tn p hs =
      ({ (mq.createTopic tn defaultMaxSize).1 with
          topics := assocUpdate tn
            (fun _ => (Topic.addMessage H (mq.createTopic tn defaultMaxSize).2
              (mkMessage (mq.createTopic tn defaultMaxSize).1.nextId tn p hs)
              (mq.createTopic tn defaultMaxSize).1.heap).1)
            (mq.createTopic tn defaultMaxSize).1.topics
          heap := (Topic.addMessage H (mq.createTopic tn defaultMaxSize).2
            (mkMessage (mq.createTopic tn defaultMaxSize).1.nextId tn p hs)
            (mq.createTopic tn defaultMaxSize).1.heap).2.1
          nextId := (mq.createTopic tn defaultMaxSize).1.nextId + 1 },
       (mq.createTopic tn defaultMaxSize).1.nextId,
       (Topic.addMessage H (mq.createTopic tn defaultMaxSize).2
         (mkMessage (mq.createTopic tn defaultMaxSize).1.nextId tn p hs)
         (mq.createTopic tn defaultMaxSize).1.heap).2.2) := rfl

theorem publish_topics_eq (H : HandlerEnv) (mq : MessageQueue)
    (tn p : String) (hs : List (String × String)) :
    (MessageQueue.publish H mq tn p hs).1.topics =
      assocUpdate tn
        (fun _ => (Topic.addMessage H (mq.createTopic tn defaultMaxSize).2
          (mkMessage (mq.createTopic tn defaultMaxSize).1.nextId tn p hs)
          (mq.createTopic tn defaultMaxSize).1.heap).1)
        (mq.createTopic tn defaultMaxSize).1.topics := rfl

theorem publish_heap_eq (H : HandlerEnv) (mq : MessageQueue)
    (tn p : String) (hs : List (String × String)) :
    (MessageQueue.publish H mq tn p hs).1.heap =
      (Topic.addMessage H (mq.createTopic tn defaultMaxSize).2
        (mkMessage (mq.createTopic tn defaultMaxSize).1.nextId tn p hs)
        (mq.createTopic tn defaultMaxSize).1.heap).2.1 := rfl

theorem publish_log_eq (H : HandlerEnv) (mq : MessageQueue)
    (tn p : String) (hs : List (String × String)) :
    (MessageQueue.publish H mq tn p hs).2.2 =
      (Topic.addMessage H (mq.createTopic tn defaultMaxSize).2
        (mkMessage (mq.createTopic tn defaultMaxSize).1.nextId tn p hs)
        (mq.createTopic tn defaultMaxSize).1.heap).2.2 := rfl

theorem subscribeB_noconsumer (mq : MessageQueue) (cid tn : String)
    (hco : assocFind cid mq.heap = none) :
    mq.subscribeB cid tn = mq := by
  unfold MessageQueue.subscribeB
  rw [hco]

theorem subscribeB_reduces (mq : MessageQueue) (cid tn : String) (co : Consumer)
    (hco : assocFind cid mq.heap = some co) :
    mq.subscribeB cid tn =
      { (mq.createTopic tn defaultMaxSize).1 with
          topics := assocUpdate tn
            (fun _ => (Topic.subscribeC (mq.createTopic tn defaultMaxSize).2 cid
              (mq.createTopic tn defaultMaxSize).1.heap).1)
            (mq.createTopic tn defaultMaxSize).1.topics
          heap := (Topic.subscribeC (mq.createTopic tn defaultMaxSize).2 cid
            (mq.createTopic tn defaultMaxSize).1.heap).2
          consumers :=
            if cid ∈ (mq.createTopic tn defaultMaxSize).1.consumers
            then (mq.createTopic tn defaultMaxSize).1.consumers
            else (mq.createTopic tn defaultMaxSize).1.consumers ++ [cid] } := by
  unfold MessageQueue.subscribeB
  rw [hco]

theorem unsubscribeB_none (mq : MessageQueue) (cid tn : String)
    (hlk : assocFind tn mq.topics = none) :
    mq.unsubscribeB cid tn = mq := by
  unfold MessageQueue.unsubscribeB
  rw [hlk]

theorem unsubscribeB_reduces (mq : MessageQueue) (cid tn : String) (t : Topic)
    (hlk : assocFind tn mq.topics = some t) :
    mq.unsubscribeB cid tn =
      { mq with
          topics := assocUpdate tn
            (fun _ => (Topic.unsubscribeC t cid mq.heap).1) mq.topics
          heap := (Topic.unsubscribeC t cid mq.heap).2 } := by
  unfold MessageQueue.unsubscribeB
  rw [hlk]

theorem deleteTopic_notfound (mq : MessageQueue) (n : String)
    (hlk : assocFind n mq.topics = none) :
    mq.deleteTopic n = (mq, false) := by
  unfold MessageQueue.deleteTopic
  rw [hlk]

theorem deleteTopic_found (mq : MessageQueue) (n : String) (t : Topic)
    (hlk : assocFind n mq.topics = some t) :
    mq.deleteTopic n =
      ({ mq with
          topics := assocErase n mq.topics
          heap := (mq.consumers.foldl
            (fun acc cid => Topic.unsubscribeC acc.1 cid acc.2) (t, mq.heap)).2 },
       true) := by
  unfold MessageQueue.deleteTopic
  rw [hlk]

theorem newConsumer_found (mq : MessageQueue) (cid : String) (co : Consumer)
    (hco : assocFind cid mq.heap = some co) :
    mq.newConsumer cid = mq := by
  unfold MessageQueue.newConsumer
  rw [hco]

theorem newConsumer_fresh (mq : MessageQueue) (cid : String)
    (hco : assocFind cid mq.heap = none) :
    mq.newConsumer cid =
      { mq with heap :=
          mq.heap ++ [(cid, { id := cid, active := true, subscribedTopics := [] })] } := by
  unfold MessageQueue.newConsumer
  rw [hco]

theorem newConsumer_topics (mq : MessageQueue) (cid : String) :
    (mq.newConsumer cid).topics = mq.topics := by
  unfold MessageQueue.newConsumer
  cases assocFind cid mq.heap <;> rfl

theorem stopConsumer_topics (mq : MessageQueue) (cid : String) :
    (mq.stopConsumer cid).topics = mq.topics := rfl

theorem assocFind_append_of_some {α : Type} (k : String) (v : α)
    (l₂ : List (String × α)) :
    ∀ l₁ : List (String × α), assocFind k l₁ = some v →
      assocFind k (l₁ ++ l₂) = some v := by
  intro l₁
  induction l₁ with
  | nil => intro h; exact absurd h (by simp [assocFind])
  | cons p rest ih =>
    obtain ⟨k', v'⟩ := p
    intro h
    by_cases hk : k' = k
    · rw [show assocFind k ((k', v') :: rest) = some v' from by
        show (if k' = k then some v' else assocFind k rest) = some v'
        rw [if_pos hk]] at h
      show (if k' = k then some v' else assocFind k (rest ++ l₂)) = some v
      rw [if_pos hk]
      exact h
    · rw [show assocFind k ((k', v') :: rest) = assocFind k rest from by
        show (if k' = k then some v' else assocFind k rest) = assocFind k rest
        rw [if_neg hk]] at h
      show (if k' = k then some v' else assocFind k (rest ++ l₂)) = some v
      rw [if_neg hk]
      exact ih h

theorem assocFind_append_of_none {α : Type} (k : String) (l₂ : List (String × α)) :
    ∀ l₁ : List (String × α), assocFind k l₁ = none →
      assocFind k (l₁ ++ l₂) = assocFind k l₂ := by
  intro l₁
  induction l₁ with
  | nil => intro _; rfl
  | cons p rest ih =>
    obtain ⟨k', v'⟩ := p
    intro h
    by_cases hk : k' = k
    · rw [show assocFind k ((k', v') :: rest) = some v' from by
        show (if k' = k then some v' else assocFind k rest) = some v'
        rw [if_pos hk]] at h
      exact absurd h (by simp)
    · rw [show assocFind k ((k', v') :: rest) = assocFind k rest from by
        show (if k' = k then some v' else assocFind k rest) = assocFind k rest
        rw [if_neg hk]] at h
      show (if k' = k then some v' else assocFind k (rest ++ l₂)) = assocFind k l₂
      rw [if_neg hk]
      exact ih h

theorem assocFind_erase_ne {α : Type} (key n : String) (hne : n ≠ key) :
    ∀ l : List (String × α), assocFind n (assocErase key l) = assocFind n l := by
  intro l
  induction l with
  | nil => rfl
  | cons p rest ih =>
    obtain ⟨k, v⟩ := p
    by_cases hk : k = key
    · rw [show assocErase key ((k, v) :: rest) = assocErase key rest from by
        simp [assocErase, hk]]
      rw [ih]
      show assocFind n rest = if k = n then some v else assocFind n rest
      rw [if_neg (fun he => hne (by rw [← he]; exact hk))]
    · rw [show assocErase key ((k, v) :: rest) = (k, v) :: assocErase key rest from by
        simp [assocErase, hk]]
      show (if k = n then some v else assocFind n (assocErase key rest)) =
        assocFind n ((k, v) :: rest)
      rw [ih]
      rfl

/-! The counter/buffer-length invariant over all reachable broker states
(C9), and per-step monotonicity of a surviving topic's buffer length. -/

def TopicsInv (mq : MessageQueue) : Prop :=
  ∀ n tp, assocFind n mq.topics = some tp → tp.messageCount = tp.messages.length

theorem addMessage_reject (H : HandlerEnv) (t : Topic) (m : Message) (h : Heap)
    (hge : t.messages.length ≥ t.maxSize) : Topic.addMessage H t m h = (t, h, []) := by
  unfold Topic.addMessage
  rw [if_pos hge]

theorem addMessage_accept (H : HandlerEnv) (t : Topic) (m : Message) (h : Heap)
    (hlt : ¬t.messages.length ≥ t.maxSize) :
    Topic.addMessage H t m h =
      Topic.deliverMessage H
        { t with messages := t.messages ++ [m], messageCount := t.messageCount + 1 }
        m h := by
  unfold Topic.addMessage
  rw [if_neg hlt]

theorem addMessage_count_inv (H : HandlerEnv) (t : Topic) (m : Message) (h : Heap)
    (hinv : t.messageCount = t.messages.length) :
    (Topic.addMessage H t m h).1.messageCount =
      (Topic.addMessage H t m h).1.messages.length := by
  by_cases hfull : t.messages.length ≥ t.maxSize
  · rw [addMessage_reject H t m h hfull]
    exact hinv
  · rw [addMessage_accept H t m h hfull]
    have hp := deliverMessage_preserves H (mkMessage 0 "" "" [] |> fun _ => m)
      { t with messages := t.messages ++ [m], messageCount := t.messageCount + 1 } h
    rw [hp.1, hp.2.1]
    simp [hinv]

theorem addMessage_length_ge (H : HandlerEnv) (t : Topic) (m : Message) (h : Heap) :
    t.messages.length ≤ (Topic.addMessage H t m h).1.messages.length := by
  by_cases hfull : t.messages.length ≥ t.maxSize
  · rw [addMessage_reject H t m h hfull]
  · rw [addMessage_accept H t m h hfull, (deliverMessage_preserves H m _ h).1]
    simp only [List.length_append, List.length_singleton]
    omega

theorem createTopic_snd_inv (mq : MessageQueue) (n : String) (c : Nat)
    (hinv : TopicsInv mq) :
    (mq.createTopic n c).2.messageCount = (mq.createTopic n c).2.messages.length := by
  cases hlk : assocFind n mq.topics with
  | some t =>
    rw [createTopic_existing mq n c t hlk]
    exact hinv n t hlk
  | none =>
    rw [createTopic_new mq n c hlk]
    rfl

theorem step_topicsInv (H : HandlerEnv) (mq : MessageQueue) (op : Op)
    (hinv : TopicsInv mq) : TopicsInv (step H mq op) := by
  cases op with
  | newConsumer cid =>
    intro n tp hfind
    rw [show step H mq (Op.newConsumer cid) = mq.newConsumer cid from rfl,
      newConsumer_topics] at hfind
    exact hinv n tp hfind
  | createTopic nm c =>
    intro n tp hfind
    cases hlk : assocFind nm mq.topics with
    | some t =>
      rw [show step H mq (Op.createTopic nm c) = (mq.createTopic nm c).1 from rfl,
        createTopic_existing mq nm c t hlk] at hfind
      exact hinv n tp hfind
    | none =>
      rw [show step H mq (Op.createTopic nm c) = (mq.createTopic nm c).1 from rfl,
        createTopic_new mq nm c hlk] at hfind
      have hfind' : assocFind n ((nm, freshTopic nm c) :: mq.topics) = some tp := hfind
      by_cases hn : nm = n
      · rw [show assocFind n ((nm, freshTopic nm c) :: mq.topics) =
            some (freshTopic nm c) from by
          show (if nm = n then some (freshTopic nm c) else assocFind n mq.topics) = _
          rw [if_pos hn]] at hfind'
        cases Option.some.inj hfind'
        rfl
      · rw [show assocFind n ((nm, freshTopic nm c) :: mq.topics) =
            assocFind n mq.topics from by
          show (if nm = n then some (freshTopic nm c) else assocFind n mq.topics) = _
          rw [if_neg hn]] at hfind'
        exact hinv n tp hfind'
  | publish tn p hs =>
    intro n tp hfind
    rw [show step H mq (Op.publish tn p hs) = (MessageQueue.publish H mq tn p hs).1
        from rfl,
      publish_topics_eq] at hfind
    by_cases hn : n = tn
    · subst hn
      rw [assocFind_update_self, createTopic_find] at hfind
      have htp : tp = (Topic.addMessage H (mq.createTopic n defaultMaxSize).2
          (mkMessage (mq.createTopic n defaultMaxSize).1.nextId n p hs)
          (mq.createTopic n defaultMaxSize).1.heap).1 := by
        simpa using hfind.symm
      rw [htp]
      exact addMessage_count_inv H _ _ _ (createTopic_snd_inv mq n defaultMaxSize hinv)
    · rw [assocFind_update_ne tn n _ hn, createTopic_find_ne mq tn _ n hn] at hfind
      exact hinv n tp hfind
  | subscribe cid tn =>
    intro n tp hfind
    cases hco : assocFind cid mq.heap with
    | none =>
      rw [show step H mq (Op.subscribe cid tn) = mq.subscribeB cid tn from rfl,
        subscribeB_noconsumer mq cid tn hco] at hfind
      exact hinv n tp hfind
    | some co =>
      rw [show step H mq (Op.subscribe cid tn) = mq.subscribeB cid tn from rfl,
        subscribeB_reduces mq cid tn co hco] at hfind
      have hfind' : assocFind n
          (assocUpdate tn
            (fun _ => (Topic.subscribeC (mq.createTopic tn defaultMaxSize).2 cid
              (mq.createTopic tn defaultMaxSize).1.heap).1)
            (mq.createTopic tn defaultMaxSize).1.topics) = some tp := hfind
      by_cases hn : n = tn
      · subst hn
        rw [assocFind_update_self, createTopic_find] at hfind'
        have htp : tp = (Topic.subscribeC (mq.createTopic n defaultMaxSize).2 cid
            (mq.createTopic n defaultMaxSize).1.heap).1 := by
          simpa using hfind'.symm
        rw [htp, (subscribeC_fields _ _ _).2.1, (subscribeC_fields _ _ _).1]
        exact createTopic_snd_inv mq n defaultMaxSize hinv
      · rw [assocFind_update_ne tn n _ hn, createTopic_find_ne mq tn _ n hn] at hfind'
        exact hinv n tp hfind'
  | unsubscribe cid tn =>
    intro n tp hfind
    cases hlk : assocFind tn mq.topics with
    | none =>
      rw [show step H mq (Op.unsubscribe cid tn) = mq.unsubscribeB cid tn from rfl,
        unsubscribeB_none mq cid tn hlk] at hfind
      exact hinv n tp hfind
    | some t =>
      rw [show step H mq (Op.unsubscribe cid tn) = mq.unsubscribeB cid tn from rfl,
        unsubscribeB_reduces mq cid tn t hlk] at hfind
      have hfind' : assocFind n
          (assocUpdate tn (fun _ => (Topic.unsubscribeC t cid mq.heap).1) mq.topics) =
          some tp := hfind
      by_cases hn : n = tn
      · subst hn
        rw [assocFind_update_self, hlk] at hfind'
        have htp : tp = (Topic.unsubscribeC t cid mq.heap).1 := by
          simpa using hfind'.symm
        rw [htp, (unsubscribeC_fields _ _ _).2.1, (unsubscribeC_fields _ _ _).1]
        exact hinv n t hlk
      · rw [assocFind_update_ne tn n _ hn] at hfind'
        exact hinv n tp hfind'
  | deleteTopic nm =>
    intro n tp hfind
    cases hlk : assocFind nm mq.topics with
    | none =>
      rw [show step H mq (Op.deleteTopic nm) = (mq.deleteTopic nm).1 from rfl,
        deleteTopic_notfound mq nm hlk] at hfind
      exact hinv n tp hfind
    | some t =>
      rw [show step H mq (Op.deleteTopic nm) = (mq.deleteTopic nm).1 from rfl,
        deleteTopic_found mq nm t hlk] at hfind
      have hfind' : assocFind n (assocErase nm mq.topics) = some tp := hfind
      by_cases hn : n = nm
      · subst hn
        rw [assocFind_erase_self] at hfind'
        exact absurd hfind' (by simp)
      · rw [assocFind_erase_ne nm n hn] at hfind'
        exact hinv n tp hfind'
  | stop cid =>
    intro n tp hfind
    rw [show step H mq (Op.stop cid) = mq.stopConsumer cid from rfl,
      stopConsumer_topics] at hfind
    exact hinv n tp hfind

theorem run_topicsInv (H : HandlerEnv) (ops : List Op) (mq : MessageQueue)
    (hinv : TopicsInv mq) : TopicsInv (run H ops mq) :=
  foldl_inv TopicsInv (step H) (fun a b ha => step_topicsInv H a b ha) ops mq hinv

theorem initMQ_topicsInv : TopicsInv initMQ := by
  intro n tp h
  simp [initMQ, assocFind] at h

theorem step_length_mono (H : HandlerEnv) (mq : MessageQueue) (op : Op) (n : String)
    (tp tp' : Topic) (hfind : assocFind n mq.topics = some tp)
    (hfind' : assocFind n (step H mq op).topics = some tp') :
    tp.messages.length ≤ tp'.messages.length := by
  cases op with
  | newConsumer cid =>
    rw [show step H mq (Op.newConsumer cid) = mq.newConsumer cid from rfl,
      newConsumer_topics, hfind] at hfind'
    cases Option.some.inj hfind'
    exact le_rfl
  | createTopic nm c =>
    cases hlk : assocFind nm mq.topics with
    | some t =>
      rw [show step H mq (Op.createTopic nm c) = (mq.createTopic nm c).1 from rfl,
        createTopic_existing mq nm c t hlk, hfind] at hfind'
      cases Option.some.inj hfind'
      exact le_rfl
    | none =>
      rw [show step H mq (Op.createTopic nm c) = (mq.createTopic nm c).1 from rfl,
        createTopic_new mq nm c hlk] at hfind'
      have hfind'' : assocFind n ((nm, freshTopic nm c) :: mq.topics) = some tp' := hfind'
      by_cases hn : nm = n
      · subst hn
        exact absurd (hfind.symm.trans hlk) (by simp)
      · rw [show assocFind n ((nm, freshTopic nm c) :: mq.topics) =
            assocFind n mq.topics from by
          show (if nm = n then some (freshTopic nm c) else assocFind n mq.topics) = _
          rw [if_neg hn], hfind] at hfind''
        cases Option.some.inj hfind''
        exact le_rfl
  | publish tn p hs =>
    rw [show step H mq (Op.publish tn p hs) = (MessageQueue.publish H mq tn p hs).1
        from rfl,
      publish_topics_eq] at hfind'
    by_cases hn : n = tn
    · subst hn
      rw [assocFind_update_self, createTopic_find] at hfind'
      have htp' : tp' = (Topic.addMessage H (mq.createTopic n defaultMaxSize).2
          (mkMessage (mq.createTopic n defaultMaxSize).1.nextId n p hs)
          (mq.createTopic n defaultMaxSize).1.heap).1 := by
        simpa using hfind'.symm
      rw [htp', createTopic_existing mq n defaultMaxSize tp hfind]
      exact addMessage_length_ge H tp _ _
    · rw [assocFind_update_ne tn n _ hn, createTopic_find_ne mq tn _ n hn, hfind]
        at hfind'
      cases Option.some.inj hfind'
      exact le_rfl
  | subscribe cid tn =>
    cases hco : assocFind cid mq.heap with
    | none =>
      rw [show step H mq (Op.subscribe cid tn) = mq.subscribeB cid tn from rfl,
        subscribeB_noconsumer mq cid tn hco, hfind] at hfind'
      cases Option.some.inj hfind'
      exact le_rfl
    | some co =>
      rw [show step H mq (Op.subscribe cid tn) = mq.subscribeB cid tn from rfl,
        subscribeB_reduces mq cid tn co hco] at hfind'
      have hfind'' : assocFind n
          (assocUpdate tn
            (fun _ => (Topic.subscribeC (mq.createTopic tn defaultMaxSize).2 cid
              (mq.createTopic tn defaultMaxSize).1.heap).1)
            (mq.createTopic tn defaultMaxSize).1.topics) = some tp' := hfind'
      by_cases hn : n = tn
      · subst hn
        rw [assocFind_update_self, createTopic_find] at hfind''
        have htp' : tp' = (Topic.subscribeC (mq.createTopic n defaultMaxSize).2 cid
            (mq.createTopic n defaultMaxSize).1.heap).1 := by
          simpa using hfind''.symm
        rw [htp', (subscribeC_fields _ _ _).1,
          createTopic_existing mq n defaultMaxSize tp hfind]
      · rw [assocFind_update_ne tn n _ hn, createTopic_find_ne mq tn _ n hn, hfind]
          at hfind''
        cases Option.some.inj hfind''
        exact le_rfl
  | unsubscribe cid tn =>
    cases hlk : assocFind tn mq.topics with
    | none =>
      rw [show step H mq (Op.unsubscribe cid tn) = mq.unsubscribeB cid tn from rfl,
        unsubscribeB_none mq cid tn hlk, hfind] at hfind'
      cases Option.some.inj hfind'
      exact le_rfl
    | some t =>
      rw [show step H mq (Op.unsubscribe cid tn) = mq.unsubscribeB cid tn from rfl,
        unsubscribeB_reduces mq cid tn t hlk] at hfind'
      have hfind'' : assocFind n
          (assocUpdate tn (fun _ => (Topic.unsubscribeC t cid mq.heap).1) mq.topics) =
          some tp' := hfind'
      by_cases hn : n = tn
      · subst hn
        rw [assocFind_update_self, hlk] at hfind''
        have htp' : tp' = (Topic.unsubscribeC t cid mq.heap).1 := by
          simpa using hfind''.symm
        have ht : t = tp := Option.some.inj (hlk.symm.trans hfind)
        rw [htp', (unsubscribeC_fields _ _ _).1, ht]
      · rw [assocFind_update_ne tn n _ hn, hfind] at hfind''
        cases Option.some.inj hfind''
        exact le_rfl
  | deleteTopic nm =>
    cases hlk : assocFind nm mq.topics with
    | none =>
      rw [show step H mq (Op.deleteTopic nm) = (mq.deleteTopic nm).1 from rfl,
        deleteTopic_notfound mq nm hlk, hfind] at hfind'
      cases Option.some.inj hfind'
      exact le_rfl
    | some t =>
      rw [show step H mq (Op.deleteTopic nm) = (mq.deleteTopic nm).1 from rfl,
        deleteTopic_found mq nm t hlk] at hfind'
      have hfind'' : assocFind n (assocErase nm mq.topics) = some tp' := hfind'
      by_cases hn : n = nm
      · subst hn
        rw [assocFind_erase_self] at hfind''
        exact absurd hfind'' (by simp)
      · rw [assocFind_erase_ne nm n hn, hfind] at hfind''
        cases Option.some.inj hfind''
        exact le_rfl
  | stop cid =>
    rw [show step H mq (Op.stop cid) = mq.stopConsumer cid from rfl,
      stopConsumer_topics, hfind] at hfind'
    cases Option.some.inj hfind'
    exact le_rfl

/-- C9: in every reachable broker state, every registered topic's
`messageCount` equals its buffer length (messages are only ever appended and
never removed: no single API step shrinks a surviving topic's buffer), and
once the buffer has reached capacity a publish to that topic leaves the
topic's registry entry — buffer, order and counter — exactly unchanged, so
both statistics stay frozen at capacity. -/
theorem messageCount_eq_buffer_length (H : HandlerEnv) (ops : List Op) (n : String)
    (tp : Topic) (hfind : assocFind n (run H ops initMQ).topics = some tp) :
    tp.messageCount = tp.messages.length ∧
    (tp.messages.length = tp.maxSize → ∀ p hs,
      assocFind n (MessageQueue.publish H (run H ops initMQ) n p hs).1.topics =
        some tp) ∧
    (∀ op tp', assocFind n (step H (run H ops initMQ) op).topics = some tp' →
      tp.messages.length ≤ tp'.messages.length) := by
  have hInv : TopicsInv (run H ops initMQ) :=
    run_topicsInv H ops initMQ initMQ_topicsInv
  refine ⟨hInv n tp hfind, ?_,
    fun op tp' h => step_length_mono H (run H ops initMQ) op n tp tp' hfind h⟩
  intro hfb p hs
  rw [publish_topics_eq, createTopic_existing (run H ops initMQ) n defaultMaxSize tp hfind]
  show assocFind n
      (assocUpdate n
        (fun _ => (Topic.addMessage H tp
          (mkMessage (run H ops initMQ).nextId n p hs) (run H ops initMQ).heap).1)
        (run H ops initMQ).topics) = some tp
  rw [assocFind_update_self, hfind,
    addMessage_reject H tp (mkMessage (run H ops initMQ).nextId n p hs)
      (run H ops initMQ).heap (by rw [hfb])]
  rfl

theorem messageCount_eq_buffer_length_witness :
    (freshTopic "a" 0).messageCount = (freshTopic "a" 0).messages.length ∧
    assocFind "a"
      (MessageQueue.publish H0 (run H0 [Op.createTopic "a" 0] initMQ) "a" "p" []).1.topics =
      some (freshTopic "a" 0) := by
  have h := messageCount_eq_buffer_length H0 [Op.createTopic "a" 0] "a"
    (freshTopic "a" 0) (by rfl)
  exact ⟨h.1, h.2.1 rfl "p" []⟩

/-! Heap invariants for C6: consumer ids are consistent with their heap keys,
and a stopped consumer stays stopped under every broker operation. -/

def IdConsistent (h : Heap) : Prop :=
  ∀ k co, assocFind k h = some co → co.id = k

def ActiveFalseAt (cid : String) (h : Heap) : Prop :=
  ∃ co, assocFind cid h = some co ∧ co.active = false

def StoppedHeapInv (cid : String) (h : Heap) : Prop :=
  IdConsistent h ∧ ActiveFalseAt cid h

theorem addSubscription_id (c : Consumer) (tn : String) :
    (c.addSubscription tn).id = c.id := by
  unfold Consumer.addSubscription
  split <;> rfl

theorem addSubscription_active (c : Consumer) (tn : String) :
    (c.addSubscription tn).active = c.active := by
  unfold Consumer.addSubscription
  split <;> rfl

theorem idConsistent_update (k : String) (f : Consumer → Consumer) (h : Heap)
    (hid : ∀ c, (f c).id = c.id) (hIds : IdConsistent h) :
    IdConsistent (assocUpdate k f h) := by
  intro k' co' hfind
  by_cases hkk : k' = k
  · subst hkk
    rw [assocFind_update_self] at hfind
    cases hl : assocFind k' h with
    | none =>
      rw [hl] at hfind
      exact absurd hfind (by simp)
    | some c0 =>
      rw [hl] at hfind
      have hc : co' = f c0 := by simpa using hfind.symm
      rw [hc, hid c0]
      exact hIds k' c0 hl
  · rw [assocFind_update_ne k k' f hkk] at hfind
    exact hIds k' co' hfind

theorem activeFalseAt_update (cid k : String) (f : Consumer → Consumer) (h : Heap)
    (hact : ∀ c, (f c).active = c.active ∨ (f c).active = false)
    (hA : ActiveFalseAt cid h) : ActiveFalseAt cid (assocUpdate k f h) := by
  obtain ⟨co, hco, ha⟩ := hA
  by_cases hck : cid = k
  · subst hck
    refine ⟨f co, ?_, ?_⟩
    · rw [assocFind_update_self, hco]
      rfl
    · rcases hact co with h1 | h1
      · rw [h1, ha]
      · exact h1
  · exact ⟨co, by rw [assocFind_update_ne k cid f hck]; exact hco, ha⟩

theorem stoppedInv_update (cid k : String) (f : Consumer → Consumer) (h : Heap)
    (hid : ∀ c, (f c).id = c.id)
    (hact : ∀ c, (f c).active = c.active ∨ (f c).active = false)
    (hInv : StoppedHeapInv cid h) : StoppedHeapInv cid (assocUpdate k f h) :=
  ⟨idConsistent_update k f h hid hInv.1, activeFalseAt_update cid k f h hact hInv.2⟩

theorem unsubscribeC_stoppedInv (cid : String) (t : Topic) (c : String) (h : Heap)
    (hInv : StoppedHeapInv cid h) : StoppedHeapInv cid (Topic.unsubscribeC t c h).2 := by
  unfold Topic.unsubscribeC
  split
  · show StoppedHeapInv cid
      (assocUpdate c (fun x => Consumer.removeSubscription x t.name) h)
    exact stoppedInv_update cid c _ h (fun x => rfl) (fun x => Or.inl rfl) hInv
  · exact hInv

theorem subscribeC_stoppedInv (cid : String) (t : Topic) (c : String) (h : Heap)
    (hInv : StoppedHeapInv cid h) : StoppedHeapInv cid (Topic.subscribeC t c h).2 := by
  unfold Topic.subscribeC
  split
  · exact hInv
  · show StoppedHeapInv cid
      (assocUpdate c (fun x => Consumer.addSubscription x t.name) h)
    exact stoppedInv_update cid c _ h (fun x => addSubscription_id x t.name)
      (fun x => Or.inl (addSubscription_active x t.name)) hInv

/-! Step-by-step reductions of one fan-out iteration. -/

theorem deliverStep_none (H : HandlerEnv) (m : Message)
    (acc : Topic × Heap × DeliveryLog) (sid : String)
    (hl : assocFind sid acc.2.1 = none) :
    deliverStep H m acc sid = acc := by
  unfold deliverStep
  rw [hl]

theorem deliverStep_active (H : HandlerEnv) (m : Message)
    (acc : Topic × Heap × DeliveryLog) (sid : String) (c : Consumer)
    (hl : assocFind sid acc.2.1 = some c) (hc : c.active = true) :
    deliverStep H m acc sid = (acc.1, acc.2.1, acc.2.2 ++ Consumer.onMessage H c m) := by
  unfold deliverStep
  rw [hl]
  show (if c.active = true then
      (acc.1, acc.2.1, acc.2.2 ++ Consumer.onMessage H c m)
    else
      ((Topic.unsubscribeC acc.1 sid acc.2.1).1,
       (Topic.unsubscribeC acc.1 sid acc.2.1).2, acc.2.2)) = _
  rw [if_pos hc]

theorem deliverStep_inactive (H : HandlerEnv) (m : Message)
    (acc : Topic × Heap × DeliveryLog) (sid : String) (c : Consumer)
    (hl : assocFind sid acc.2.1 = some c) (hc : ¬c.active = true) :
    deliverStep H m acc sid =
      ((Topic.unsubscribeC acc.1 sid acc.2.1).1,
       (Topic.unsubscribeC acc.1 sid acc.2.1).2, acc.2.2) := by
  unfold deliverStep
  rw [hl]
  show (if c.active = true then
      (acc.1, acc.2.1, acc.2.2 ++ Consumer.onMessage H c m)
    else
      ((Topic.unsubscribeC acc.1 sid acc.2.1).1,
       (Topic.unsubscribeC acc.1 sid acc.2.1).2, acc.2.2)) = _
  rw [if_neg hc]

theorem onMessage_mem_key (H : HandlerEnv) (c : Consumer) (m : Message)
    (e : String × Nat × DeliveryOutcome) (he : e ∈ Consumer.onMessage H c m) :
    e.1 = c.id := by
  unfold Consumer.onMessage at he
  by_cases hc : c.active = true
  · rw [if_pos hc] at he
    cases hH : H c.id m with
    | ok u =>
      rw [hH] at he
      have : e = (c.id, m.id, DeliveryOutcome.handled) := by simpa using he
      rw [this]
    | error er =>
      rw [hH] at he
      have : e = (c.id, m.id, DeliveryOutcome.errorCaught er) := by simpa using he
      rw [this]
  · rw [if_neg hc] at he
    exact absurd he (List.not_mem_nil e)

theorem deliverStep_stopped (H : HandlerEnv) (m : Message) (cid : String)
    (acc : Topic × Heap × DeliveryLog) (sid : String) (rest' : List String)
    (hIds : IdConsistent acc.2.1) (hAct : ActiveFalseAt cid acc.2.1)
    (hlog : ∀ e ∈ acc.2.2, e.1 ≠ cid)
    (hcount : acc.1.subscribers.count cid ≤ (sid :: rest').count cid) :
    IdConsistent (deliverStep H m acc sid).2.1 ∧
    ActiveFalseAt cid (deliverStep H m acc sid).2.1 ∧
    (∀ e ∈ (deliverStep H m acc sid).2.2, e.1 ≠ cid) ∧
    (deliverStep H m acc sid).1.subscribers.count cid ≤ rest'.count cid := by
  cases hl : assocFind sid acc.2.1 with
  | none =>
    have hsc : sid ≠ cid := by
      intro he
      subst he
      obtain ⟨co, hco, _⟩ := hAct
      exact absurd (hco.symm.trans hl) (by simp)
    rw [deliverStep_none H m acc sid hl]
    refine ⟨hIds, hAct, hlog, ?_⟩
    rw [List.count_cons_of_ne (fun he => hsc he.symm)] at hcount
    exact hcount
  | some c =>
    by_cases hc : c.active = true
    · have hsc : sid ≠ cid := by
        intro he
        subst he
        obtain ⟨co, hco, ha⟩ := hAct
        have hcc : co = c := Option.some.inj (hco.symm.trans hl)
        rw [hcc] at ha
        exact Bool.noConfusion (hc.symm.trans ha)
      rw [deliverStep_active H m acc sid c hl hc]
      refine ⟨hIds, hAct, ?_, ?_⟩
      · intro e he
        rcases List.mem_append.mp he with h1 | h1
        · exact hlog e h1
        · rw [onMessage_mem_key H c m e h1, hIds sid c hl]
          exact hsc
      · rw [List.count_cons_of_ne (fun he => hsc he.symm)] at hcount
        exact hcount
    · rw [deliverStep_inactive H m acc sid c hl hc]
      have hinv' := unsubscribeC_stoppedInv cid acc.1 sid acc.2.1 ⟨hIds, hAct⟩
      refine ⟨hinv'.1, hinv'.2, hlog, ?_⟩
      unfold Topic.unsubscribeC
      by_cases hmem : sid ∈ acc.1.subscribers
      · rw [if_pos hmem]
        show (acc.1.subscribers.erase sid).count cid ≤ rest'.count cid
        by_cases hsc : sid = cid
        · subst hsc
          rw [List.count_erase_self]
          rw [List.count_cons_self] at hcount
          omega
        · rw [List.count_erase_of_ne (fun he => hsc he.symm)]
          rw [List.count_cons_of_ne (fun he => hsc he.symm)] at hcount
          exact hcount
      · rw [if_neg hmem]
        show acc.1.subscribers.count cid ≤ rest'.count cid
        by_cases hsc : sid = cid
        · subst hsc
          rw [List.count_eq_zero_of_not_mem hmem]
          exact Nat.zero_le _
        · rw [List.count_cons_of_ne (fun he => hsc he.symm)] at hcount
          exact hcount

theorem deliver_fold_stopped (H : HandlerEnv) (m : Message) (cid : String) :
    ∀ (rest : List String) (acc : Topic × Heap × DeliveryLog),
      IdConsistent acc.2.1 →
      ActiveFalseAt cid acc.2.1 →
      (∀ e ∈ acc.2.2, e.1 ≠ cid) →
      acc.1.subscribers.count cid ≤ rest.count cid →
      ((∀ e ∈ (rest.foldl (deliverStep H m) acc).2.2, e.1 ≠ cid) ∧
       cid ∉ (rest.foldl (deliverStep H m) acc).1.subscribers) := by
  intro rest
  induction rest with
  | nil =>
    intro acc _ _ hlog hcount
    refine ⟨hlog, ?_⟩
    have hz : acc.1.subscribers.count cid = 0 := by
      rw [List.count_nil] at hcount
      omega
    exact List.count_eq_zero.mp hz
  | cons sid rest' ih =>
    intro acc hIds hAct hlog hcount
    rw [List.foldl_cons]
    have hs := deliverStep_stopped H m cid acc sid rest' hIds hAct hlog hcount
    exact ih (deliverStep H m acc sid) hs.1 hs.2.1 hs.2.2.1 hs.2.2.2

theorem addMessage_stopped (H : HandlerEnv) (t : Topic) (m : Message) (cid : String)
    (h : Heap) (hIds : IdConsistent h) (hAct : ActiveFalseAt cid h) :
    (∀ e ∈ (Topic.addMessage H t m h).2.2, e.1 ≠ cid) ∧
    (t.messages.length < t.maxSize → cid ∉ (Topic.addMessage H t m h).1.subscribers) := by
  by_cases hfull : t.messages.length ≥ t.maxSize
  · rw [addMessage_reject H t m h hfull]
    exact ⟨fun e he => absurd he (List.not_mem_nil e),
      fun hlt => absurd hfull (by omega)⟩
  · rw [addMessage_accept H t m h hfull]
    have hd := deliver_fold_stopped H m cid
      (({ t with messages := t.messages ++ [m], messageCount := t.messageCount + 1 } : Topic)).subscribers
      (({ t with messages := t.messages ++ [m], messageCount := t.messageCount + 1 } : Topic), h, [])
      hIds hAct (fun e he => absurd he (List.not_mem_nil e)) le_rfl
    exact ⟨hd.1, fun _ => hd.2⟩

theorem deliver_heap_stoppedInv (H : HandlerEnv) (m : Message) (cid : String) :
    ∀ (rest : List String) (acc : Topic × Heap × DeliveryLog),
      StoppedHeapInv cid acc.2.1 →
      StoppedHeapInv cid ((rest.foldl (deliverStep H m) acc)).2.1 :=
  foldl_inv (fun acc => StoppedHeapInv cid acc.2.1) (deliverStep H m)
    (fun acc sid hp => by
      cases hl : assocFind sid acc.2.1 with
      | none =>
        rw [deliverStep_none H m acc sid hl]
        exact hp
      | some c =>
        by_cases hc : c.active = true
        · rw [deliverStep_active H m acc sid c hl hc]
          exact hp
        · rw [deliverStep_inactive H m acc sid c hl hc]
          exact unsubscribeC_stoppedInv cid acc.1 sid acc.2.1 hp)

theorem addMessage_heap_stoppedInv (H : HandlerEnv) (cid : String) (t : Topic)
    (m : Message) (h : Heap) (hInv : StoppedHeapInv cid h) :
    StoppedHeapInv cid (Topic.addMessage H t m h).2.1 := by
  by_cases hfull : t.messages.length ≥ t.maxSize
  · rw [addMessage_reject H t m h hfull]
    exact hInv
  · rw [addMessage_accept H t m h hfull]
    exact deliver_heap_stoppedInv H m cid
      (({ t with messages := t.messages ++ [m], messageCount := t.messageCount + 1 } : Topic)).subscribers
      (({ t with messages := t.messages ++ [m], messageCount := t.messageCount + 1 } : Topic), h, [])
      hInv

theorem step_stoppedInv (H : HandlerEnv) (cid : String) (mq : MessageQueue) (op : Op)
    (hInv : StoppedHeapInv cid mq.heap) : StoppedHeapInv cid (step H mq op).heap := by
  cases op with
  | newConsumer c' =>
    cases hc : assocFind c' mq.heap with
    | some co =>
      rw [show step H mq (Op.newConsumer c') = mq.newConsumer c' from rfl,
        newConsumer_found mq c' co hc]
      exact hInv
    | none =>
      rw [show step H mq (Op.newConsumer c') = mq.newConsumer c' from rfl,
        newConsumer_fresh mq c' hc]
      show StoppedHeapInv cid
        (mq.heap ++ [(c', { id := c', active := true, subscribedTopics := [] })])
      obtain ⟨hIds, co, hco, ha⟩ := hInv
      constructor
      · intro k co' hfind
        cases hl : assocFind k mq.heap with
        | some c0 =>
          rw [assocFind_append_of_some k c0 _ mq.heap hl] at hfind
          rw [(Option.some.inj hfind).symm]
          exact hIds k c0 hl
        | none =>
          rw [assocFind_append_of_none k _ mq.heap hl] at hfind
          by_cases hkc : c' = k
          · rw [show assocFind k
                [(c', ({ id := c', active := true, subscribedTopics := [] } : Consumer))] =
                some { id := c', active := true, subscribedTopics := [] } from by
              show (if c' = k then
                  some ({ id := c', active := true, subscribedTopics := [] } : Consumer)
                else none) = _
              rw [if_pos hkc]] at hfind
            cases Option.some.inj hfind
            exact hkc
          · rw [show assocFind k
                [(c', ({ id := c', active := true, subscribedTopics := [] } : Consumer))] =
                none from by
              show (if c' = k then
                  some ({ id := c', active := true, subscribedTopics := [] } : Consumer)
                else none) = _
              rw [if_neg hkc]] at hfind
            exact absurd hfind (by simp)
      · exact ⟨co, assocFind_append_of_some cid co _ mq.heap hco, ha⟩
  | createTopic nm c =>
    show StoppedHeapInv cid (mq.createTopic nm c).1.heap
    rw [createTopic_heap]
    exact hInv
  | publish tn p hs =>
    show StoppedHeapInv cid (MessageQueue.publish H mq tn p hs).1.heap
    rw [publish_heap_eq, createTopic_heap]
    exact addMessage_heap_stoppedInv H cid _ _ mq.heap hInv
  | subscribe c' tn =>
    cases hc : assocFind c' mq.heap with
    | none =>
      rw [show step H mq (Op.subscribe c' tn) = mq.subscribeB c' tn from rfl,
        subscribeB_noconsumer mq c' tn hc]
      exact hInv
    | some co =>
      rw [show step H mq (Op.subscribe c' tn) = mq.subscribeB c' tn from rfl,
        subscribeB_reduces mq c' tn co hc]
      show StoppedHeapInv cid (Topic.subscribeC (mq.createTopic tn defaultMaxSize).2 c'
        (mq.createTopic tn defaultMaxSize).1.heap).2
      rw [createTopic_heap]
      exact subscribeC_stoppedInv cid _ c' mq.heap hInv
  | unsubscribe c' tn =>
    cases hlk : assocFind tn mq.topics with
    | none =>
      rw [show step H mq (Op.unsubscribe c' tn) = mq.unsubscribeB c' tn from rfl,
        unsubscribeB_none mq c' tn hlk]
      exact hInv
    | some t =>
      rw [show step H mq (Op.unsubscribe c' tn) = mq.unsubscribeB c' tn from rfl,
        unsubscribeB_reduces mq c' tn t hlk]
      show StoppedHeapInv cid (Topic.unsubscribeC t c' mq.heap).2
      exact unsubscribeC_stoppedInv cid t c' mq.heap hInv
  | deleteTopic nm =>
    cases hlk : assocFind nm mq.topics with
    | none =>
      rw [show step H mq (Op.deleteTopic nm) = (mq.deleteTopic nm).1 from rfl,
        deleteTopic_notfound mq nm hlk]
      exact hInv
    | some t =>
      rw [show step H mq (Op.deleteTopic nm) = (mq.deleteTopic nm).1 from rfl,
        deleteTopic_found mq nm t hlk]
      show StoppedHeapInv cid
        ((mq.consumers.foldl (fun acc cid => Topic.unsubscribeC acc.1 cid acc.2)
          (t, mq.heap)).2)
      exact foldl_inv (fun acc : Topic × Heap => StoppedHeapInv cid acc.2)
        (fun acc cid0 => Topic.unsubscribeC acc.1 cid0 acc.2)
        (fun a b ha => unsubscribeC_stoppedInv cid a.1 b a.2 ha)
        mq.consumers (t, mq.heap) hInv
  | stop c' =>
    show StoppedHeapInv cid (assocUpdate c' Consumer.stopC mq.heap)
    exact stoppedInv_update cid c' _ mq.heap (fun c => rfl) (fun c => Or.inr rfl) hInv

theorem run_stoppedInv (H : HandlerEnv) (cid : String) (ops : List Op)
    (mq : MessageQueue) (hInv : StoppedHeapInv cid mq.heap) :
    StoppedHeapInv cid (run H ops mq).heap :=
  foldl_inv (fun s => StoppedHeapInv cid s.heap) (step H)
    (fun a b ha => step_stoppedInv H cid a b ha) ops mq hInv

theorem stopConsumer_heap (mq : MessageQueue) (cid : String) :
    (mq.stopConsumer cid).heap = assocUpdate cid Consumer.stopC mq.heap := rfl

/-- C6: `stop()` is a terminal one-way transition: right after `stop()` the
consumer's active flag is false; no sequence of later broker operations ever
makes it true again; a publish in any later state never invokes that
consumer's handler (no delivery-log entry carries its id); and on the next
delivery attempt on a topic (an accepted publish) the consumer is pruned
from that topic's live subscriber list.  The hypotheses record that consumer
objects carry their own key as id and that the consumer exists. -/
theorem stop_is_terminal (H : HandlerEnv) (mq : MessageQueue) (cid : String)
    (hids : IdConsistent mq.heap)
    (hmem : ∃ co, assocFind cid mq.heap = some co) :
    (∀ co, assocFind cid (mq.stopConsumer cid).heap = some co → co.active = false) ∧
    (∀ ops co, assocFind cid (run H ops (mq.stopConsumer cid)).heap = some co →
      co.active = false) ∧
    (∀ ops x p hs e,
      e ∈ (MessageQueue.publish H (run H ops (mq.stopConsumer cid)) x p hs).2.2 →
      e.1 ≠ cid) ∧
    (∀ ops x p hs tp,
      assocFind x (run H ops (mq.stopConsumer cid)).topics = some tp →
      tp.messages.length < tp.maxSize →
      ∀ tp', assocFind x
          (MessageQueue.publish H (run H ops (mq.stopConsumer cid)) x p hs).1.topics =
          some tp' →
        cid ∉ tp'.subscribers) := by
  obtain ⟨co0, hco0⟩ := hmem
  have hInv1 : StoppedHeapInv cid (mq.stopConsumer cid).heap := by
    constructor
    · exact idConsistent_update cid Consumer.stopC mq.heap (fun c => rfl) hids
    · refine ⟨Consumer.stopC co0, ?_, rfl⟩
      show assocFind cid (assocUpdate cid Consumer.stopC mq.heap) =
        some (Consumer.stopC co0)
      rw [assocFind_update_self, hco0]
      rfl
  have hInvRun : ∀ ops, StoppedHeapInv cid (run H ops (mq.stopConsumer cid)).heap :=
    fun ops => run_stoppedInv H cid ops (mq.stopConsumer cid) hInv1
  refine ⟨?_, ?_, ?_, ?_⟩
  · intro co hco
    obtain ⟨co', hco', ha'⟩ := hInv1.2
    rw [← Option.some.inj (hco'.symm.trans hco)]
    exact ha'
  · intro ops co hco
    obtain ⟨co', hco', ha'⟩ := (hInvRun ops).2
    rw [← Option.some.inj (hco'.symm.trans hco)]
    exact ha'
  · intro ops x p hs e he
    rw [publish_log_eq, createTopic_heap] at he
    exact (addMessage_stopped H _ _ cid _ (hInvRun ops).1 (hInvRun ops).2).1 e he
  · intro ops x p hs tp hflk hlt tp' hfind'
    rw [publish_topics_eq,
      createTopic_existing (run H ops (mq.stopConsumer cid)) x defaultMaxSize tp hflk]
      at hfind'
    have hfind'' : assocFind x
        (assocUpdate x
          (fun _ => (Topic.addMessage H tp
            (mkMessage (run H ops (mq.stopConsumer cid)).nextId x p hs)
            (run H ops (mq.stopConsumer cid)).heap).1)
          (run H ops (mq.stopConsumer cid)).topics) = some tp' := hfind'
    rw [assocFind_update_self, hflk] at hfind''
    have htp' : tp' = (Topic.addMessage H tp
        (mkMessage (run H ops (mq.stopConsumer cid)).nextId x p hs)
        (run H ops (mq.stopConsumer cid)).heap).1 := by
      simpa using hfind''.symm
    rw [htp']
    exact (addMessage_stopped H tp _ cid _ (hInvRun ops).1 (hInvRun ops).2).2 hlt

def consS : Consumer := { id := "s", active := true, subscribedTopics := ["x"] }

def topicWX : Topic :=
  { name := "x", maxSize := 2, messages := [], subscribers := ["s"], messageCount := 0 }

def mqW : MessageQueue :=
  { topics := [("x", topicWX)], consumers := ["s"], heap := [("s", consS)], nextId := 0 }

theorem stop_is_terminal_witness :
    (∀ co, assocFind "s" (mqW.stopConsumer "s").heap = some co → co.active = false) ∧
    (∀ tp', assocFind "x"
        (MessageQueue.publish H0 (run H0 [] (mqW.stopConsumer "s")) "x" "p" []).1.topics =
        some tp' →
      "s" ∉ tp'.subscribers) := by
  have hids : IdConsistent mqW.heap := by
    intro k co hfind
    by_cases hk : "s" = k
    · have hv : co = consS := by
        rw [show assocFind k mqW.heap = some consS from by
          show (if "s" = k then some consS else none) = _
          rw [if_pos hk]] at hfind
        exact (Option.some.inj hfind).symm
      rw [hv]
      exact hk
    · rw [show assocFind k mqW.heap = none from by
        show (if "s" = k then some consS else none) = _
        rw [if_neg hk]] at hfind
      exact absurd hfind (by simp)
  have h := stop_is_terminal H0 mqW "s" hids ⟨consS, rfl⟩
  exact ⟨h.1, fun tp' hf =>
    h.2.2.2 [] "x" "p" [] topicWX rfl (by decide) tp' hf⟩
